import Mathlib

/- Verification of the try directory picker: a shallow embedding of the
   ranking/scoring engine (src/lib/scoring.ts), the before-delete hook gate
   (src/lib/callbacks.ts) and the interactive selector key handling
   (src/components/Selector.tsx, src/components/DeleteConfirm.tsx),
   with theorems settling the specification claims about them.

   Conventions of the embedding:
   - JavaScript floating-point arithmetic is modelled by the real numbers;
     timestamps (epoch milliseconds) are rationals, and the wall clock is an
     explicit parameter.
   - JavaScript strings are Lean strings; the handful of JS string methods the
     code uses (trim, toLowerCase, padStart) are embedded as functions on the
     underlying character lists, restricted to the ASCII behaviour the claims
     exercise.
   - Array.prototype.sort with a numeric comparator is a stable sort; any
     stable sort by the same key produces the same list, so it is embedded as
     a stable insertion sort (sortDescBy below) together with proofs of
     sortedness, permutation and stability.
   - The external fzf library (a third-party npm dependency, not part of this
     repository) is modelled by the FzfMatcher interface: a deterministic
     per-name match function, plus the documented behaviour of Fzf.find with
     the default options (drop non-matching entries, sort descending by the
     match score; with no tiebreakers configured equal scores keep input
     order, since the underlying sort is stable). -/

set_option maxRecDepth 4000

/-! JS string primitives -/

/-- Embedding of JavaScript String.prototype.trim: remove whitespace from both
ends (the claims only exercise ASCII whitespace). -/
def jsTrim (s : String) : String :=
  ⟨((s.data.dropWhile Char.isWhitespace).reverse.dropWhile Char.isWhitespace).reverse⟩

/-- Embedding of JavaScript String.prototype.toLowerCase (ASCII range). -/
def jsToLowerCase (s : String) : String :=
  ⟨s.data.map Char.toLower⟩

/-- Embedding of JavaScript String(n).padStart(2, "0"). -/
def padStart2Zero (s : String) : String :=
  ⟨List.replicate (2 - s.data.length) '0' ++ s.data⟩

/-! Data model (src/types.ts) -/

/-- TryEntry from src/types.ts. Timestamps are epoch milliseconds as
rationals; datePrefix and baseName are the parsed naming metadata. -/
structure TryEntry where
  path : String
  name : String
  createdAt : ℚ
  accessedAt : ℚ
  modifiedAt : ℚ
  datePrefix : Option String
  baseName : String
deriving DecidableEq

/-- ScoredEntry from src/types.ts: a TryEntry extended with the scoring
output (score is the combined score; matchedIndices the highlight
positions). -/
structure ScoredEntry extends TryEntry where
  score : ℝ
  fuzzyScore : ℝ
  timeScore : ℝ
  matchedIndices : List ℕ

/-! Stable descending sort (embedding of Array.prototype.sort with the
comparator (a, b) => b.key - a.key, which is a stable sort; a stable sort by
a fixed key is unique, so this insertion sort is extensionally the JS one) -/

/-- Stable insertion of x into l for descending order by key f: x goes in
front of the first element whose key is at most f x, so among equal keys the
newly inserted (later-in-input) element goes last. -/
def insertDescBy {α β : Type} [LinearOrder β] (f : α → β) (x : α) : List α → List α
  | [] => [x]
  | y :: ys => if f y ≤ f x then x :: y :: ys else y :: insertDescBy f x ys

/-- Stable insertion sort, descending by key f. -/
def sortDescBy {α β : Type} [LinearOrder β] (f : α → β) : List α → List α
  | [] => []
  | x :: xs => insertDescBy f x (sortDescBy f xs)

/-- Ascending insertion for natural numbers (embedding of
Array.from(set).sort((a, b) => a - b) on match positions). -/
def insertAscNat (x : ℕ) : List ℕ → List ℕ
  | [] => [x]
  | y :: ys => if x ≤ y then x :: y :: ys else y :: insertAscNat x ys

/-- Ascending insertion sort for natural numbers. -/
def sortAscNat : List ℕ → List ℕ
  | [] => []
  | x :: xs => insertAscNat x (sortAscNat xs)

/-! Scoring engine (src/lib/scoring.ts) -/

/-- Embedding of calculateTimeScore from src/lib/scoring.ts: elapsed
milliseconds are converted to hours and scored as
min(1, 3.0 / sqrt(hours + 1) / 3.0). Date.now() is the explicit parameter
now; modifiedAt.getTime() is the parameter modifiedAt. -/
noncomputable def calculateTimeScore (now modifiedAt : ℚ) : ℝ :=
  min 1 (3 / Real.sqrt (((now - modifiedAt : ℚ) : ℝ) / (1000 * 60 * 60) + 1) / 3)

/-- Model of the external fzf library: a matcher assigns to (query, name)
either none (no match) or a pair of the match score and the set of matched
character positions. It is a function, hence deterministic: equal names get
equal results. -/
structure FzfMatcher where
  matchQuery : String → String → Option (ℚ × List ℕ)

/-- Model of new Fzf(entries, { selector: e => e.name }).find(query) with the
default options: keep exactly the entries whose name matches, and sort the
results descending by match score; the sort is stable and no tiebreakers are
configured, so equal scores keep input order. -/
def fzfFind (m : FzfMatcher) (entries : List TryEntry) (query : String) :
    List (TryEntry × ℚ × List ℕ) :=
  sortDescBy (fun r => r.2.1)
    (entries.filterMap fun entry => (m.matchQuery query entry.name).map fun res => (entry, res))

/-- Scored entry built in the empty-query branch of scoreEntries: the
combined score is the time score, fuzzyScore is fixed at 1 and
matchedIndices is empty. -/
noncomputable def timeRanked (now : ℚ) (entry : TryEntry) : ScoredEntry :=
  { toTryEntry := entry
    score := calculateTimeScore now entry.modifiedAt
    fuzzyScore := 1
    timeScore := calculateTimeScore now entry.modifiedAt
    matchedIndices := [] }

/-- Scored entry built in the non-blank branch of scoreEntries from one fzf
result: fuzzyScore = min(1, score / 100), combined score
= fuzzyScore * 0.7 + timeScore * 0.3, matched positions sorted ascending. -/
noncomputable def fuzzyRanked (now : ℚ) (result : TryEntry × ℚ × List ℕ) : ScoredEntry :=
  { toTryEntry := result.1
    score := min 1 ((result.2.1 : ℝ) / 100) * 0.7 +
      calculateTimeScore now result.1.modifiedAt * 0.3
    fuzzyScore := min 1 ((result.2.1 : ℝ) / 100)
    timeScore := calculateTimeScore now result.1.modifiedAt
    matchedIndices := sortAscNat result.2.2 }

/-- Embedding of scoreEntries from src/lib/scoring.ts. With a blank query
(query.trim() falsy) every entry is scored by time only and the list is
sorted descending by that score. Otherwise the fzf results are mapped to
scored entries through fuzzyRanked. Note the non-blank branch keeps the fzf
result order: it does not re-sort. -/
noncomputable def scoreEntries (m : FzfMatcher) (now : ℚ) (entries : List TryEntry)
    (query : String) : List ScoredEntry :=
  if jsTrim query = "" then
    sortDescBy (fun s => s.score) (entries.map (timeRanked now))
  else
    (fzfFind m entries query).map (fuzzyRanked now)

/-- Character class of the regex [^a-z0-9] complement: an ASCII lowercase
letter or digit. -/
def isAsciiLowerAlnum (c : Char) : Bool :=
  ('a' ≤ c && c ≤ 'z') || ('0' ≤ c && c ≤ '9')

/-- Embedding of .replace(/[^a-z0-9]+/g, "-"): each maximal run of characters
outside [a-z0-9] becomes a single hyphen. The boolean accumulator records
whether the previous character was inside such a run. -/
def collapseGo : Bool → List Char → List Char
  | _, [] => []
  | inRun, c :: cs =>
    if isAsciiLowerAlnum c then c :: collapseGo false cs
    else if inRun then collapseGo true cs
    else '-' :: collapseGo true cs

/-- Embedding of .replace(/^-+|-+$/g, ""): remove the leading and the
trailing run of hyphens. -/
def trimHyphens (l : List Char) : List Char :=
  ((l.dropWhile fun c => c = '-').reverse.dropWhile fun c => c = '-').reverse

/-- Embedding of normalizeName from src/lib/scoring.ts: lower-case, collapse
non-alphanumeric runs to single hyphens, trim hyphens at both ends. -/
def normalizeName (name : String) : String :=
  ⟨trimHyphens (collapseGo false ((jsToLowerCase name).data))⟩

/-- Embedding of todayPrefix from src/lib/scoring.ts, with the clock made
explicit: year as rendered by String(year), month and day zero-padded to two
digits, joined by hyphens. -/
def todayPrefix (y m d : ℕ) : String :=
  Nat.repr y ++ "-" ++ padStart2Zero (Nat.repr m) ++ "-" ++ padStart2Zero (Nat.repr d)

/-- Embedding of createDirName from src/lib/scoring.ts: date prefix plus the
normalized name, or the bare prefix when the normalized name is empty (the
JS conditional tests string truthiness, i.e. non-emptiness). -/
def createDirName (y m d : ℕ) (name : String) : String :=
  if normalizeName name = "" then todayPrefix y m d
  else todayPrefix y m d ++ "-" ++ normalizeName name

/-! Before-delete hook gate (src/lib/callbacks.ts) -/

/-- CallbackResult from src/types.ts. -/
structure CallbackResult where
  success : Bool
  exitCode : ℤ
  stdout : String
  stderr : String
deriving DecidableEq

/-- Result assembled in the close handler of executeCallback: success is
code === 0 and a null exit code is reported as 1 (code ?? 1). -/
def mkCloseResult (code : Option ℤ) (out err : String) : CallbackResult :=
  { success := decide (code = some 0)
    exitCode := code.getD 1
    stdout := out
    stderr := err }

/-- Outcome of runBeforeDelete: whether the deletion proceeds and the abort
message, if any. -/
structure BeforeDeleteDecision where
  proceed : Bool
  message : Option String
deriving DecidableEq

/-- Embedding of runBeforeDelete from src/lib/callbacks.ts: no configured
before_delete hook means proceed; a failed hook result aborts with the
captured stderr, or with a generic exit-code message when stderr is empty
(the JS expression stderr || generic); a successful result proceeds. -/
def runBeforeDelete (configured : Bool) (result : CallbackResult) : BeforeDeleteDecision :=
  if !configured then { proceed := true, message := none }
  else if !result.success then
    { proceed := false
      message := some (if result.stderr = "" then "Callback exited with code " ++
        toString result.exitCode else result.stderr) }
  else { proceed := true, message := none }

/-! Selector key handling (src/components/Selector.tsx) -/

/-- Number of navigable items in search mode: the scored entries plus the
synthetic create-new slot shown when query.trim() is non-empty. -/
def selectorTotalItems (scored : List ScoredEntry) (query : String) : ℕ :=
  scored.length + (if 0 < (jsTrim query).length then 1 else 0)

/-- Embedding of the down-arrow update (prev + 1) % totalItems. JS numbers on
these small integers are exact, and the operand is non-negative, so JS % and
Int.emod agree; with totalItems = 0 the JS expression is NaN, so the model is
only meaningful for a non-empty item list. -/
def selectorNextIndex (prev total : ℤ) : ℤ := (prev + 1) % total

/-- Embedding of the up-arrow update (prev - 1 + totalItems) % totalItems. -/
def selectorPrevIndex (prev total : ℤ) : ℤ := (prev - 1 + total) % total

/-- Index of the synthetic create-new slot: the position one past the scored
entries when the trimmed query is non-empty, and the sentinel -1 (never equal
to a cursor position) otherwise. -/
def createNewIndex (scored : List ScoredEntry) (query : String) : ℤ :=
  if 0 < (jsTrim query).length then scored.length else -1

/-- Terminal action emitted by the selector on the return key. -/
inductive SelectorAction
  | cancel
  | create (name : String)
  | selectEntry (entry : ScoredEntry)

/-- Embedding of the key.return branch of the Selector input handler: an
exit keyword (query trimmed and lower-cased equal to exit or q) cancels; the
create-new slot creates with the date-prefixed normalized name; a cursor on a
scored entry selects it; otherwise nothing is emitted. -/
def handleReturnKey (y m d : ℕ) (query : String) (scored : List ScoredEntry)
    (selectedIndex : ℤ) : Option SelectorAction :=
  if jsToLowerCase (jsTrim query) = "exit" ∨ jsToLowerCase (jsTrim query) = "q" then
    some SelectorAction.cancel
  else if selectedIndex = createNewIndex scored query then
    some (SelectorAction.create (createDirName y m d query))
  else if 0 < scored.length ∧ selectedIndex < (scored.length : ℤ) then
    match scored.get? selectedIndex.toNat with
    | some entry => some (SelectorAction.selectEntry entry)
    | none => none
  else none

/-! Delete confirmation dialog (src/components/DeleteConfirm.tsx) -/

/-- Key events the DeleteConfirm input handler distinguishes. -/
inductive DCKey
  | escape
  | char (c : Char)
  | leftArrow
  | rightArrow
  | ret
deriving DecidableEq

/-- Highlighted button of the DeleteConfirm dialog; cancel is the initial
state. -/
inductive DCSelected
  | cancel
  | delete
deriving DecidableEq

/-- Terminal callbacks of DeleteConfirm: confirm fires onConfirm (the Delete
action), cancel fires onCancel. -/
inductive DCEmit
  | confirm
  | cancel
deriving DecidableEq

/-- Toggle between the cancel and delete buttons. -/
def dcToggle : DCSelected → DCSelected
  | DCSelected.cancel => DCSelected.delete
  | DCSelected.delete => DCSelected.cancel

/-- Embedding of the DeleteConfirm useInput handler: escape, n or N cancel;
y or Y confirm; arrows, h or l toggle the highlighted button; return emits
the highlighted button; anything else is ignored. -/
def deleteConfirmStep (sel : DCSelected) : DCKey → DCSelected × Option DCEmit
  | DCKey.escape => (sel, some DCEmit.cancel)
  | DCKey.char c =>
    if c = 'n' ∨ c = 'N' then (sel, some DCEmit.cancel)
    else if c = 'y' ∨ c = 'Y' then (sel, some DCEmit.confirm)
    else if c = 'h' ∨ c = 'l' then (dcToggle sel, none)
    else (sel, none)
  | DCKey.leftArrow => (dcToggle sel, none)
  | DCKey.rightArrow => (dcToggle sel, none)
  | DCKey.ret =>
    (sel, some (match sel with
      | DCSelected.delete => DCEmit.confirm
      | DCSelected.cancel => DCEmit.cancel))

/-- Feed a key sequence to the DeleteConfirm dialog and return the first
emitted terminal callback (the component is unmounted once one fires). -/
def deleteConfirmRun (sel : DCSelected) : List DCKey → Option DCEmit
  | [] => none
  | k :: ks =>
    match deleteConfirmStep sel k with
    | (_, some e) => some e
    | (sel2, none) => deleteConfirmRun sel2 ks

/-- Key events produced by typing a string character by character. -/
def keysOfTyping (s : String) : List DCKey := s.data.map DCKey.char

/-! Concrete instances used by witnesses and counterexamples -/

/-- Boolean subsequence test: true when the first character list occurs in
order (not necessarily contiguously) inside the second. -/
def isSubseqB : List Char → List Char → Bool
  | [], _ => true
  | _ :: _, [] => false
  | a :: as, b :: bs => if a = b then isSubseqB as bs else isSubseqB (a :: as) bs

/-- Concrete matcher instance: a name matches when the query is a
subsequence of it, with a length-proportional score, as a witness
instantiation of the FzfMatcher interface. -/
def demoMatcher : FzfMatcher :=
  { matchQuery := fun query name =>
      if isSubseqB query.data name.data then some ((16 * query.data.length : ℕ), []) else none }

/-- Concrete entry named abx, last modified 24 hours before the reference
clock 0 (epoch milliseconds -86400000). -/
def entAbx : TryEntry :=
  { path := "/home/user/tries/abx"
    name := "abx"
    createdAt := -86400000
    accessedAt := -86400000
    modifiedAt := -86400000
    datePrefix := none
    baseName := "abx" }

/-- Concrete entry named aby, last modified exactly at the reference
clock 0. -/
def entAby : TryEntry :=
  { path := "/home/user/tries/aby"
    name := "aby"
    createdAt := 0
    accessedAt := 0
    modifiedAt := 0
    datePrefix := none
    baseName := "aby" }

/-- Concrete scored entry used where only the shape of the list matters. -/
noncomputable def dummyScored : ScoredEntry :=
  { toTryEntry := entAby
    score := 1
    fuzzyScore := 1
    timeScore := 1
    matchedIndices := [] }

/-! Stable sort lemmas -/

/-- Inserting with insertDescBy permutes consing. -/
theorem perm_insertDescBy {α β : Type} [LinearOrder β] (f : α → β) (x : α) (l : List α) :
    (insertDescBy f x l).Perm (x :: l) := by
  induction l with
  | nil => simp [insertDescBy]
  | cons y ys ih =>
    rw [insertDescBy]
    by_cases h : f y ≤ f x
    · rw [if_pos h]
    · rw [if_neg h]
      exact ((ih.cons y).trans (List.Perm.swap x y ys))

/-- Sorting with sortDescBy permutes the input. -/
theorem perm_sortDescBy {α β : Type} [LinearOrder β] (f : α → β) (l : List α) :
    (sortDescBy f l).Perm l := by
  induction l with
  | nil => simp [sortDescBy]
  | cons x xs ih => exact (perm_insertDescBy f x (sortDescBy f xs)).trans (ih.cons x)

/-- Inserting into a descending list keeps it descending. -/
theorem pairwise_insertDescBy {α β : Type} [LinearOrder β] (f : α → β) (x : α) (l : List α)
    (h : l.Pairwise fun a b => f b ≤ f a) :
    (insertDescBy f x l).Pairwise fun a b => f b ≤ f a := by
  induction l with
  | nil => simp [insertDescBy]
  | cons y ys ih =>
    rw [insertDescBy]
    rcases List.pairwise_cons.mp h with ⟨hy, hys⟩
    by_cases hle : f y ≤ f x
    · rw [if_pos hle]
      refine List.pairwise_cons.mpr ⟨?_, h⟩
      intro b hb
      rcases List.mem_cons.mp hb with rfl | hb
      · exact hle
      · exact le_trans (hy b hb) hle
    · rw [if_neg hle]
      refine List.pairwise_cons.mpr ⟨?_, ih hys⟩
      intro b hb
      have hperm := perm_insertDescBy f x ys
      rcases List.mem_cons.mp (hperm.mem_iff.mp hb) with rfl | hb
      · exact le_of_not_le hle
      · exact hy b hb

/-- Lists produced by sortDescBy are descending in the key. -/
theorem pairwise_sortDescBy {α β : Type} [LinearOrder β] (f : α → β) (l : List α) :
    (sortDescBy f l).Pairwise fun a b => f b ≤ f a := by
  induction l with
  | nil => simp [sortDescBy]
  | cons x xs ih => exact pairwise_insertDescBy f x (sortDescBy f xs) ih

/-- Filtering any single key value through an insertion: the new element ends
up in front of the equal-key elements already present, which were later in
the original input order. -/
theorem filter_insertDescBy {α β : Type} [LinearOrder β] (f : α → β) (x : α) (l : List α)
    (s : β) :
    (insertDescBy f x l).filter (fun a => decide (f a = s)) =
      if f x = s then x :: l.filter (fun a => decide (f a = s))
      else l.filter (fun a => decide (f a = s)) := by
  induction l with
  | nil =>
    by_cases hx : f x = s
    · simp [insertDescBy, hx]
    · simp [insertDescBy, hx]
  | cons y ys ih =>
    rw [insertDescBy]
    by_cases hle : f y ≤ f x
    · rw [if_pos hle]
      by_cases hx : f x = s
      · simp [List.filter, hx]
      · simp [List.filter, hx]
    · rw [if_neg hle]
      by_cases hys : f y = s
      · have hx : ¬ (f x = s) := by
          intro hxs
          exact hle (le_of_eq (hys.trans hxs.symm))
        simp [List.filter, hys, hx, ih]
      · by_cases hx : f x = s
        · simp [List.filter, hys, hx, ih]
        · simp [List.filter, hys, hx, ih]

/-- Stability of sortDescBy: elements of any single key value appear in their
input order. -/
theorem filter_sortDescBy {α β : Type} [LinearOrder β] (f : α → β) (l : List α) (s : β) :
    (sortDescBy f l).filter (fun a => decide (f a = s)) =
      l.filter (fun a => decide (f a = s)) := by
  induction l with
  | nil => simp [sortDescBy]
  | cons x xs ih =>
    rw [sortDescBy, filter_insertDescBy]
    by_cases hx : f x = s
    · simp [List.filter, hx, ih]
    · simp [List.filter, hx, ih]

/-! Time score lemmas -/

/-- With non-negative elapsed hours the min against 1 never clips, and the
3 / sqrt / 3 expression collapses to 1 / sqrt(hours + 1). -/
theorem timeScore_hours_eq (h : ℝ) (hh : 0 ≤ h) :
    min 1 (3 / Real.sqrt (h + 1) / 3) = 1 / Real.sqrt (h + 1) := by
  have h1 : (1:ℝ) ≤ Real.sqrt (h + 1) := by
    calc (1:ℝ) = Real.sqrt 1 := (Real.sqrt_one).symm
    _ ≤ Real.sqrt (h + 1) := Real.sqrt_le_sqrt (by linarith)
  have hpos : 0 < Real.sqrt (h + 1) := lt_of_lt_of_le one_pos h1
  rw [div_div, mul_comm, ← div_div, div_self (by norm_num : (3:ℝ) ≠ 0)]
  exact min_eq_right (by rw [div_le_one hpos]; exact h1)

/-- Closed form of calculateTimeScore for a non-negative elapsed time. -/
theorem calculateTimeScore_eq (now modifiedAt : ℚ) (h : 0 ≤ now - modifiedAt) :
    calculateTimeScore now modifiedAt =
      1 / Real.sqrt (((now - modifiedAt : ℚ) : ℝ) / (1000 * 60 * 60) + 1) := by
  unfold calculateTimeScore
  apply timeScore_hours_eq
  apply div_nonneg
  · exact_mod_cast h
  · norm_num

/-- Entries modified exactly at the clock score exactly 1. -/
theorem calculateTimeScore_now (now : ℚ) : calculateTimeScore now now = 1 := by
  rw [calculateTimeScore_eq now now (by norm_num)]
  norm_num [Real.sqrt_one]

/-- Entries modified 24 hours before the clock score exactly 1/5. -/
theorem calculateTimeScore_24h (now modifiedAt : ℚ) (h : now - modifiedAt = 86400000) :
    calculateTimeScore now modifiedAt = 1 / 5 := by
  rw [calculateTimeScore_eq now modifiedAt (by rw [h]; norm_num)]
  rw [show (((now - modifiedAt : ℚ) : ℝ) / (1000 * 60 * 60) + 1) = 5 ^ 2 by
    rw [h]; push_cast; norm_num]
  rw [Real.sqrt_sq (by norm_num)]

/-- Entries modified 168 hours before the clock score exactly 1/13. -/
theorem calculateTimeScore_168h (now modifiedAt : ℚ) (h : now - modifiedAt = 604800000) :
    calculateTimeScore now modifiedAt = 1 / 13 := by
  rw [calculateTimeScore_eq now modifiedAt (by rw [h]; norm_num)]
  rw [show (((now - modifiedAt : ℚ) : ℝ) / (1000 * 60 * 60) + 1) = 13 ^ 2 by
    rw [h]; push_cast; norm_num]
  rw [Real.sqrt_sq (by norm_num)]

/-- The time score always lies between 0 and 1. -/
theorem calculateTimeScore_mem (now modifiedAt : ℚ) :
    calculateTimeScore now modifiedAt ∈ Set.Icc (0:ℝ) 1 := by
  unfold calculateTimeScore
  constructor
  · apply le_min (by norm_num)
    positivity
  · exact min_le_left _ _

/-- C4: the time-decay function calculateTimeScore is strictly decreasing in
the elapsed time since the last-modified timestamp, takes values in [0, 1],
equals 1 at zero elapsed time, lies strictly between 0.1 and 0.7 at 24 hours,
and is below 0.1 at 168 hours. -/
theorem calculateTimeScore_props :
    (∀ now m1 m2 : ℚ, 0 ≤ now - m1 → now - m1 < now - m2 →
      calculateTimeScore now m2 < calculateTimeScore now m1) ∧
    (∀ now mo : ℚ, calculateTimeScore now mo ∈ Set.Icc (0:ℝ) 1) ∧
    (∀ now : ℚ, calculateTimeScore now now = 1) ∧
    (1 / 10 < calculateTimeScore 86400000 0 ∧ calculateTimeScore 86400000 0 < 7 / 10) ∧
    calculateTimeScore 604800000 0 < 1 / 10 := by
  refine ⟨?_, calculateTimeScore_mem, calculateTimeScore_now, ?_, ?_⟩
  · intro now m1 m2 h0 hlt
    have h2 : (0:ℚ) ≤ now - m2 := le_of_lt (lt_of_le_of_lt h0 hlt)
    rw [calculateTimeScore_eq now m1 h0, calculateTimeScore_eq now m2 h2]
    have hc : ((now - m1 : ℚ) : ℝ) < ((now - m2 : ℚ) : ℝ) := by exact_mod_cast hlt
    have hc0 : (0:ℝ) ≤ ((now - m1 : ℚ) : ℝ) := by exact_mod_cast h0
    have hd : ((now - m1 : ℚ) : ℝ) / (1000 * 60 * 60) <
        ((now - m2 : ℚ) : ℝ) / (1000 * 60 * 60) := by
      apply div_lt_div_of_pos_right hc
      norm_num
    have hd0 : (0:ℝ) ≤ ((now - m1 : ℚ) : ℝ) / (1000 * 60 * 60) := by positivity
    apply one_div_lt_one_div_of_lt
    · exact Real.sqrt_pos.mpr (by linarith)
    · exact Real.sqrt_lt_sqrt (by linarith) (by linarith)
  · rw [calculateTimeScore_24h 86400000 0 (by norm_num)]
    norm_num
  · rw [calculateTimeScore_168h 604800000 0 (by norm_num)]
    norm_num

/-- C4 witness at concrete inputs: moving the modification time from 12 hours
ago to 24 hours ago strictly lowers the score. -/
theorem calculateTimeScore_props_witness :
    (0:ℚ) ≤ 86400000 - 43200000 ∧ 86400000 - 43200000 < 86400000 - 0 ∧
    calculateTimeScore 86400000 0 < calculateTimeScore 86400000 43200000 :=
  ⟨by norm_num, by norm_num,
    calculateTimeScore_props.1 86400000 43200000 0 (by norm_num) (by norm_num)⟩

/-! Before-delete gate theorems -/

/-- C6: with no configured before_delete hook deletion proceeds; a hook exit
code other than 0 aborts deletion with the captured stderr as message, or a
generic exited-with-code message when stderr is empty; exit code 0 lets
deletion proceed. -/
theorem runBeforeDelete_gate :
    (∀ r : CallbackResult, runBeforeDelete false r = { proceed := true, message := none }) ∧
    (∀ (code : ℤ) (out err : String), code ≠ 0 →
      runBeforeDelete true (mkCloseResult (some code) out err) =
        { proceed := false
          message := some (if err = "" then "Callback exited with code " ++ toString code
            else err) }) ∧
    (∀ out err : String, runBeforeDelete true (mkCloseResult (some 0) out err) =
      { proceed := true, message := none }) := by
  refine ⟨fun r => rfl, ?_, ?_⟩
  · intro code out err hc
    have hs : (mkCloseResult (some code) out err).success = false := by
      simp [mkCloseResult, hc]
    unfold runBeforeDelete
    rw [hs]
    simp [mkCloseResult]
  · intro out err
    unfold runBeforeDelete
    simp [mkCloseResult]

/-- C6 witness: a hook exiting with code 2 and empty stderr aborts deletion
with the generic message. -/
theorem runBeforeDelete_gate_witness :
    (2:ℤ) ≠ 0 ∧ runBeforeDelete true (mkCloseResult (some 2) ("") ("")) =
      { proceed := false, message := some ("Callback exited with code 2") } := by
  constructor
  · decide
  · have h := runBeforeDelete_gate.2.1 2 ("") ("") (by decide)
    simpa using h

/-! Selector navigation theorems -/

/-- C8: with a non-empty item list (scored entries plus the create slot when
the trimmed query is non-empty), the next key wraps from the last item to
index 0 and otherwise advances by one, and the previous key wraps from index
0 to the last item and otherwise retreats by one. -/
theorem selector_navigation_wraparound (scored : List ScoredEntry) (query : String) (prev : ℤ)
    (h0 : 0 ≤ prev) (hlt : prev < (selectorTotalItems scored query : ℤ)) :
    (prev = (selectorTotalItems scored query : ℤ) - 1 →
      selectorNextIndex prev (selectorTotalItems scored query : ℤ) = 0) ∧
    (prev + 1 < (selectorTotalItems scored query : ℤ) →
      selectorNextIndex prev (selectorTotalItems scored query : ℤ) = prev + 1) ∧
    (prev = 0 → selectorPrevIndex prev (selectorTotalItems scored query : ℤ) =
      (selectorTotalItems scored query : ℤ) - 1) ∧
    (0 < prev → selectorPrevIndex prev (selectorTotalItems scored query : ℤ) = prev - 1) := by
  set T := (selectorTotalItems scored query : ℤ) with hT
  refine ⟨?_, ?_, ?_, ?_⟩
  · intro hlast
    have h1 : prev + 1 = T := by omega
    rw [selectorNextIndex, h1]
    exact Int.emod_self
  · intro hn
    rw [selectorNextIndex]
    exact Int.emod_eq_of_lt (by omega) hn
  · intro hz
    have h1 : prev - 1 + T = T - 1 := by omega
    rw [selectorPrevIndex, h1]
    exact Int.emod_eq_of_lt (by omega) (by omega)
  · intro hp
    have h2 : (prev - 1 + T) % T = (prev - 1) % T := by
      rw [show prev - 1 + T = prev - 1 + T * 1 by ring, Int.add_mul_emod_self_left]
    rw [selectorPrevIndex, h2]
    exact Int.emod_eq_of_lt (by omega) (by omega)

/-- C8 witness over a two-item list (one scored entry plus the create slot
for the non-blank query): next wraps 1 to 0 and previous wraps 0 to 1. -/
theorem selector_navigation_wraparound_witness :
    selectorNextIndex 1 (selectorTotalItems [dummyScored] ("ab") : ℤ) = 0 ∧
    selectorPrevIndex 0 (selectorTotalItems [dummyScored] ("ab") : ℤ) =
      (selectorTotalItems [dummyScored] ("ab") : ℤ) - 1 := by
  have h := selector_navigation_wraparound [dummyScored] ("ab") 1 (by decide) (by decide)
  have h' := selector_navigation_wraparound [dummyScored] ("ab") 0 (by decide) (by decide)
  exact ⟨h.1 (by decide), h'.2.2.1 rfl⟩

/-- C10: when the trimmed, lower-cased query is an exit keyword, the return
key emits Cancel for every cursor position, including the create slot, so no
Create or Select action can be emitted. -/
theorem selector_exit_keyword (y m d : ℕ) (query : String) (scored : List ScoredEntry)
    (idx : ℤ)
    (h : jsToLowerCase (jsTrim query) = "exit" ∨ jsToLowerCase (jsTrim query) = "q") :
    handleReturnKey y m d query scored idx = some SelectorAction.cancel := by
  unfold handleReturnKey
  rw [if_pos h]

/-- C10 witness: the query " Q " with the cursor exactly on the create slot
still cancels. -/
theorem selector_exit_keyword_witness :
    handleReturnKey 2025 10 12 (" Q ") [dummyScored] (createNewIndex [dummyScored] (" Q "))
      = some SelectorAction.cancel :=
  selector_exit_keyword 2025 10 12 (" Q ") [dummyScored]
    (createNewIndex [dummyScored] (" Q ")) (Or.inr (by decide))

/-! Delete confirmation theorems -/

/-- C2 as implemented: the DeleteConfirm component is a y/n dialog, not a
retype-the-name confirmation. Typing the exact directory name 2025-12-12-test
and pressing return emits Cancel (return fires the highlighted button, which
starts on Cancel); typing wrong-name emits Cancel already at its letter n;
and a single y emits Delete without any name having been typed. The first
two runs contradict the claim and the component test suite
(src/__tests__/DeleteConfirm.test.tsx), which demand Delete after retyping
the exact name and no emission at all for a wrong name. -/
theorem deleteConfirm_retype_divergence :
    deleteConfirmRun DCSelected.cancel (keysOfTyping ("2025-12-12-test") ++ [DCKey.ret]) =
      some DCEmit.cancel ∧
    deleteConfirmRun DCSelected.cancel (keysOfTyping ("wrong-name") ++ [DCKey.ret]) =
      some DCEmit.cancel ∧
    deleteConfirmRun DCSelected.cancel [DCKey.char 'y'] = some DCEmit.confirm := by
  refine ⟨by decide, by decide, by decide⟩

/-! Scoring engine theorems -/

/-- Branch lemma: with a blank query scoreEntries is the stable descending
sort by score of the time-ranked entries. -/
theorem scoreEntries_blank_eq (m : FzfMatcher) (now : ℚ) (entries : List TryEntry)
    (query : String) (hq : jsTrim query = "") :
    scoreEntries m now entries query =
      sortDescBy (fun s => s.score) (entries.map (timeRanked now)) := by
  unfold scoreEntries
  rw [if_pos hq]

/-- Branch lemma: with a non-blank query scoreEntries maps fuzzyRanked over
the fzf results, in their order. -/
theorem scoreEntries_nonblank_eq (m : FzfMatcher) (now : ℚ) (entries : List TryEntry)
    (query : String) (hq : jsTrim query ≠ "") :
    scoreEntries m now entries query = (fzfFind m entries query).map (fuzzyRanked now) := by
  unfold scoreEntries
  rw [if_neg hq]

/-- Every member of a blank-query result is the time-ranking of some input
entry. -/
theorem mem_scoreEntries_blank (m : FzfMatcher) (now : ℚ) (entries : List TryEntry)
    (query : String) (hq : jsTrim query = "") (s : ScoredEntry)
    (hs : s ∈ scoreEntries m now entries query) : ∃ e ∈ entries, s = timeRanked now e := by
  rw [scoreEntries_blank_eq m now entries query hq] at hs
  have hmem := (perm_sortDescBy (fun s : ScoredEntry => s.score)
    (entries.map (timeRanked now))).mem_iff.mp hs
  rcases List.mem_map.mp hmem with ⟨e, he, hse⟩
  exact ⟨e, he, hse.symm⟩

/-- Every fzf result comes from an input entry whose name the matcher
matched. -/
theorem mem_fzfFind (m : FzfMatcher) (entries : List TryEntry) (query : String)
    (r : TryEntry × ℚ × List ℕ) (hr : r ∈ fzfFind m entries query) :
    r.1 ∈ entries ∧ (m.matchQuery query r.1.name).isSome = true := by
  unfold fzfFind at hr
  have hmem := (perm_sortDescBy (fun r : TryEntry × ℚ × List ℕ => r.2.1) _).mem_iff.mp hr
  rcases List.mem_filterMap.mp hmem with ⟨e, he, hmap⟩
  rcases Option.map_eq_some'.mp hmap with ⟨res, hres, hr2⟩
  have h1 : r.1 = e := by rw [← hr2]
  rw [h1, hres]
  exact ⟨he, rfl⟩

/-- Subsequence test agrees with List.Sublist. -/
theorem isSubseqB_iff (a b : List Char) : isSubseqB a b = true ↔ a.Sublist b := by
  induction b generalizing a with
  | nil =>
    cases a with
    | nil => simp [isSubseqB]
    | cons x xs => simp [isSubseqB]
  | cons c cs ih =>
    cases a with
    | nil => simp [isSubseqB]
    | cons x xs =>
      rw [isSubseqB]
      by_cases hxc : x = c
      · subst hxc
        rw [if_pos rfl, ih]
        exact (List.cons_sublist_cons).symm
      · rw [if_neg hxc, ih]
        constructor
        · intro h
          exact h.cons c
        · intro h
          cases h with
          | cons _ h2 => exact h2
          | cons₂ h2 => exact absurd rfl hxc

/-- The demo matcher matches a name exactly when the query is a subsequence
of it. -/
theorem demoMatcher_subseq_spec (q n : String) :
    (demoMatcher.matchQuery q n).isSome = true ↔ q.data.Sublist n.data := by
  rw [show demoMatcher.matchQuery q n =
    (if isSubseqB q.data n.data then some (((16 * q.data.length : ℕ) : ℚ), ([] : List ℕ))
      else none) from rfl]
  by_cases h : isSubseqB q.data n.data = true
  · rw [if_pos h]
    simp only [Option.isSome_some, true_iff]
    exact (isSubseqB_iff q.data n.data).mp h
  · rw [if_neg h]
    simp only [Option.isSome_none, Bool.false_eq_true, false_iff]
    intro hs
    exact h ((isSubseqB_iff q.data n.data).mpr hs)

/-- C5: with a non-blank query and a matcher that succeeds exactly on the
names having the query as a subsequence, every scored result has the query
as a subsequence of its name, and no entry whose name lacks the query
survives into the result. -/
theorem scoreEntries_subseq (m : FzfMatcher) (now : ℚ) (entries : List TryEntry)
    (query : String)
    (hm : ∀ n : String, (m.matchQuery query n).isSome = true ↔ query.data.Sublist n.data)
    (hq : jsTrim query ≠ "") :
    (∀ s ∈ scoreEntries m now entries query, query.data.Sublist s.name.data) ∧
    (∀ e ∈ entries, ¬ query.data.Sublist e.name.data →
      ∀ s ∈ scoreEntries m now entries query, s.toTryEntry ≠ e) := by
  constructor
  · intro s hs
    rw [scoreEntries_nonblank_eq m now entries query hq] at hs
    rcases List.mem_map.mp hs with ⟨r, hr, hsr⟩
    have hmatch := (mem_fzfFind m entries query r hr).2
    have hname : s.name = r.1.name := by rw [← hsr]; rfl
    rw [hname]
    exact (hm r.1.name).mp hmatch
  · intro e he hne s hs
    rw [scoreEntries_nonblank_eq m now entries query hq] at hs
    rcases List.mem_map.mp hs with ⟨r, hr, hsr⟩
    intro heq
    apply hne
    have hmatch := (mem_fzfFind m entries query r hr).2
    have h1 : s.toTryEntry = r.1 := by rw [← hsr]; rfl
    have h2 : r.1 = e := by rw [← h1, heq]
    rw [← h2]
    exact (hm r.1.name).mp hmatch

/-- Results of fzfFind are descending in the raw fzf match score. -/
theorem fzfFind_pairwise (m : FzfMatcher) (entries : List TryEntry) (query : String) :
    (fzfFind m entries query).Pairwise (fun a b => b.2.1 ≤ a.2.1) := by
  unfold fzfFind
  exact pairwise_sortDescBy _ _

/-- C3 (amended): with a non-blank query the combined score of every result
is 0.7 * fuzzyComponent + 0.3 * timeComponent; with a blank query (empty or
whitespace-only) the combined score equals the time component, the fuzzy
component is fixed at 1 and the matched positions are empty. -/
theorem scoreEntries_combined (m : FzfMatcher) (now : ℚ) (entries : List TryEntry)
    (query : String) :
    (jsTrim query ≠ "" → ∀ s ∈ scoreEntries m now entries query,
      s.score = 0.7 * s.fuzzyScore + 0.3 * s.timeScore) ∧
    (jsTrim query = "" → ∀ s ∈ scoreEntries m now entries query,
      s.score = s.timeScore ∧ s.fuzzyScore = 1 ∧ s.matchedIndices = []) := by
  constructor
  · intro hq s hs
    rw [scoreEntries_nonblank_eq m now entries query hq] at hs
    rcases List.mem_map.mp hs with ⟨r, hr, rfl⟩
    show min 1 ((r.2.1 : ℝ) / 100) * 0.7 + calculateTimeScore now r.1.modifiedAt * 0.3 =
      0.7 * (min 1 ((r.2.1 : ℝ) / 100)) + 0.3 * calculateTimeScore now r.1.modifiedAt
    ring
  · intro hq s hs
    rcases mem_scoreEntries_blank m now entries query hq s hs with ⟨e, _, rfl⟩
    exact ⟨rfl, rfl, rfl⟩

/-- Evaluation of the blank branch on one concrete entry. -/
theorem scoreEntries_demo_blank_eval :
    scoreEntries demoMatcher 0 [entAbx] (" ") = [timeRanked 0 entAbx] := by
  rw [scoreEntries_blank_eq demoMatcher 0 [entAbx] (" ") (by decide)]
  simp [sortDescBy, insertDescBy]

/-- C3 witness: on the blank side, the single result of scoring entAbx under
the empty trimmed query has combined score equal to its time score, fuzzy
component 1 and no matched positions. -/
theorem scoreEntries_combined_witness :
    jsTrim (" ") = "" ∧ (timeRanked 0 entAbx).score = (timeRanked 0 entAbx).timeScore ∧
    (timeRanked 0 entAbx).fuzzyScore = 1 ∧ (timeRanked 0 entAbx).matchedIndices = [] := by
  have h := (scoreEntries_combined demoMatcher 0 [entAbx] (" ")).2 (by decide)
    (timeRanked 0 entAbx) (by rw [scoreEntries_demo_blank_eval]; exact List.mem_singleton_self _)
  exact ⟨by decide, h.1, h.2.1, h.2.2⟩

/-- C3 counterexample to the claim as stated: the query " " is non-empty,
yet the combined score of the scored entry equals the time component 1/5 and
the fuzzy component is 1, so combinedScore is not
0.7 * fuzzyComponent + 0.3 * timeComponent: the split is decided by the
trimmed query, not by query emptiness. -/
theorem scoreEntries_combined_cex :
    (" " : String) ≠ "" ∧
    (scoreEntries demoMatcher 0 [entAbx] (" ")).map
      (fun s => (s.score, s.fuzzyScore, s.timeScore)) =
      [(1/5, 1, 1/5)] ∧
    ¬ ((1:ℝ)/5 = 0.7 * 1 + 0.3 * (1/5)) := by
  refine ⟨by decide, ?_, by norm_num⟩
  rw [scoreEntries_demo_blank_eval]
  simp only [List.map_cons, List.map_nil]
  rw [show (timeRanked 0 entAbx).score = calculateTimeScore 0 (-86400000 : ℚ) from rfl,
    show (timeRanked 0 entAbx).timeScore = calculateTimeScore 0 (-86400000 : ℚ) from rfl,
    show (timeRanked 0 entAbx).fuzzyScore = 1 from rfl,
    calculateTimeScore_24h 0 (-86400000) (by norm_num)]

/-- C9: a whitespace-only query scores exactly like the empty query: the very
same result list, fuzzy component 1 and no matched positions throughout,
ordered descending by the time component, with no entry excluded. -/
theorem scoreEntries_whitespace (m : FzfMatcher) (now : ℚ) (entries : List TryEntry)
    (query : String) (hw : ∀ c ∈ query.data, c.isWhitespace = true) :
    scoreEntries m now entries query = scoreEntries m now entries "" ∧
    (∀ s ∈ scoreEntries m now entries query, s.fuzzyScore = 1 ∧ s.matchedIndices = []) ∧
    (scoreEntries m now entries query).Pairwise (fun a b => b.timeScore ≤ a.timeScore) ∧
    (scoreEntries m now entries query).length = entries.length := by
  have hq : jsTrim query = "" := by
    show (⟨((query.data.dropWhile Char.isWhitespace).reverse.dropWhile
      Char.isWhitespace).reverse⟩ : String) = ""
    rw [List.dropWhile_eq_nil_iff.mpr hw]
    rfl
  have hfield : ∀ s ∈ scoreEntries m now entries query, s.score = s.timeScore := by
    intro s hs
    rcases mem_scoreEntries_blank m now entries query hq s hs with ⟨e, _, rfl⟩
    rfl
  refine ⟨?_, ?_, ?_, ?_⟩
  · rw [scoreEntries_blank_eq m now entries query hq,
      scoreEntries_blank_eq m now entries ("") rfl]
  · intro s hs
    rcases mem_scoreEntries_blank m now entries query hq s hs with ⟨e, _, rfl⟩
    exact ⟨rfl, rfl⟩
  · have hpw : (scoreEntries m now entries query).Pairwise (fun a b => b.score ≤ a.score) := by
      rw [scoreEntries_blank_eq m now entries query hq]
      exact pairwise_sortDescBy _ _
    refine List.Pairwise.imp_of_mem ?_ hpw
    intro a b ha hb h
    rw [← hfield a ha, ← hfield b hb]
    exact h
  · rw [scoreEntries_blank_eq m now entries query hq]
    rw [(perm_sortDescBy (fun s : ScoredEntry => s.score) (entries.map (timeRanked now))).length_eq]
    exact List.length_map entries (timeRanked now)

/-- C9 witness: the one-space query gives exactly the empty-query result on
two concrete entries, excluding neither. -/
theorem scoreEntries_whitespace_witness :
    scoreEntries demoMatcher 0 [entAbx, entAby] (" ") =
      scoreEntries demoMatcher 0 [entAbx, entAby] ("") ∧
    (scoreEntries demoMatcher 0 [entAbx, entAby] (" ")).length = 2 := by
  have h := scoreEntries_whitespace demoMatcher 0 [entAbx, entAby] (" ") (by decide)
  exact ⟨h.1, h.2.2.2⟩

/-- Evaluation of the demo matcher fzf search over the two concrete entries:
both names match the query ab with the same score, so the stable sort keeps
them in input order. -/
theorem fzfFind_demo_ab :
    fzfFind demoMatcher [entAbx, entAby] ("ab") =
      [(entAbx, 32, []), (entAby, 32, [])] := by decide

/-- Combined scores of the demo search: the entry modified 24 hours ago
scores 0.7 * 32/100 + 0.3 * 1/5 = 71/250 and the freshly modified one
0.7 * 32/100 + 0.3 * 1 = 131/250, in this order. -/
theorem scoreEntries_demo_ab_scores :
    (scoreEntries demoMatcher 0 [entAbx, entAby] ("ab")).map (fun s => s.score) =
      [71/250, 131/250] := by
  rw [scoreEntries_nonblank_eq demoMatcher 0 [entAbx, entAby] ("ab") (by decide),
    fzfFind_demo_ab]
  simp only [List.map_cons, List.map_nil]
  rw [show (fuzzyRanked 0 (entAbx, 32, [])).score =
      min 1 (((32:ℚ) : ℝ) / 100) * 0.7 + calculateTimeScore 0 (-86400000 : ℚ) * 0.3 from rfl,
    show (fuzzyRanked 0 (entAby, 32, [])).score =
      min 1 (((32:ℚ) : ℝ) / 100) * 0.7 + calculateTimeScore 0 0 * 0.3 from rfl,
    calculateTimeScore_24h 0 (-86400000) (by norm_num), calculateTimeScore_now 0]
  rw [show ((32:ℚ) : ℝ) = 32 by norm_num,
    min_eq_right (by norm_num : (32:ℝ)/100 ≤ 1)]
  norm_num

/-- C1 (amended): with a blank query the result is ordered descending by the
combined score, is a permutation of the input entries, and is stable (among
any one score value the input order is kept); with a non-blank query the
result is ordered descending by the fuzzy component, i.e. by the fzf match
score, not by the combined score. -/
theorem scoreEntries_ordering (m : FzfMatcher) (now : ℚ) (entries : List TryEntry)
    (query : String) :
    (jsTrim query = "" →
      (scoreEntries m now entries query).Pairwise (fun a b => b.score ≤ a.score) ∧
      ((scoreEntries m now entries query).map (fun s => s.toTryEntry)).Perm entries ∧
      (∀ v : ℝ, (scoreEntries m now entries query).filter (fun a => decide (a.score = v)) =
        (entries.map (timeRanked now)).filter (fun a => decide (a.score = v)))) ∧
    (jsTrim query ≠ "" →
      (scoreEntries m now entries query).Pairwise
        (fun a b => b.fuzzyScore ≤ a.fuzzyScore)) := by
  constructor
  · intro hq
    rw [scoreEntries_blank_eq m now entries query hq]
    refine ⟨pairwise_sortDescBy _ _, ?_, fun v => filter_sortDescBy _ _ v⟩
    have hp := (perm_sortDescBy (fun s : ScoredEntry => s.score)
      (entries.map (timeRanked now))).map (fun s : ScoredEntry => s.toTryEntry)
    rw [List.map_map] at hp
    have hid : ((fun s : ScoredEntry => s.toTryEntry) ∘ timeRanked now) = id := rfl
    rw [hid, List.map_id] at hp
    exact hp
  · intro hq
    rw [scoreEntries_nonblank_eq m now entries query hq, List.pairwise_map]
    refine List.Pairwise.imp ?_ (fzfFind_pairwise m entries query)
    intro a b h
    show min 1 ((b.2.1 : ℝ) / 100) ≤ min 1 ((a.2.1 : ℝ) / 100)
    have hc : (b.2.1 : ℝ) ≤ (a.2.1 : ℝ) := by exact_mod_cast h
    exact min_le_min le_rfl (by gcongr)

/-- C1 witness on the blank side: the empty query over two concrete entries
yields a result descending by combined score that permutes the input. -/
theorem scoreEntries_ordering_witness :
    jsTrim ("") = "" ∧
    (scoreEntries demoMatcher 0 [entAbx, entAby] ("")).Pairwise
      (fun a b => b.score ≤ a.score) ∧
    ((scoreEntries demoMatcher 0 [entAbx, entAby] ("")).map
      (fun s => s.toTryEntry)).Perm [entAbx, entAby] := by
  have h := (scoreEntries_ordering demoMatcher 0 [entAbx, entAby] ("")).1 rfl
  exact ⟨rfl, h.1, h.2.1⟩

/-- C1 counterexample to the claim as stated: for the non-blank query ab the
result scores are [71/250, 131/250], an ascending pair, so the result is not
ordered descending by combined score: the non-blank branch keeps the fzf
order (descending fuzzy score; here a tie kept in input order) and never
re-sorts by the combined score. -/
theorem scoreEntries_ordering_cex :
    (scoreEntries demoMatcher 0 [entAbx, entAby] ("ab")).map (fun s => s.score) =
      [71/250, 131/250] ∧
    ¬ (scoreEntries demoMatcher 0 [entAbx, entAby] ("ab")).Pairwise
      (fun a b => b.score ≤ a.score) := by
  refine ⟨scoreEntries_demo_ab_scores, ?_⟩
  intro hpw
  have h2 := (List.pairwise_map (f := fun s : ScoredEntry => s.score)
    (R := fun x y : ℝ => y ≤ x)).mpr hpw
  rw [scoreEntries_demo_ab_scores] at h2
  rcases List.pairwise_cons.mp h2 with ⟨hle, _⟩
  have h3 := hle (131/250) (by simp)
  norm_num at h3

/-- Evaluation of the demo search as scored entries. -/
theorem scoreEntries_demo_ab_eval :
    scoreEntries demoMatcher 0 [entAbx, entAby] ("ab") =
      [fuzzyRanked 0 (entAbx, 32, []), fuzzyRanked 0 (entAby, 32, [])] := by
  rw [scoreEntries_nonblank_eq demoMatcher 0 [entAbx, entAby] ("ab") (by decide),
    fzfFind_demo_ab]
  rfl

/-- C5 witness: the first result of the demo search indeed has the query ab
as a subsequence of its name abx. -/
theorem scoreEntries_subseq_witness :
    jsTrim ("ab") ≠ "" ∧
    ("ab").data.Sublist ((fuzzyRanked 0 (entAbx, (32:ℚ), ([] : List ℕ))).name).data := by
  refine ⟨by decide, ?_⟩
  refine (scoreEntries_subseq demoMatcher 0 [entAbx, entAby] ("ab")
    (fun n => demoMatcher_subseq_spec ("ab") n) (by decide)).1 _ ?_
  rw [scoreEntries_demo_ab_eval]
  exact List.mem_cons_self _ _

/-! Naming transform theorems -/

/-- The head surviving a dropWhile never satisfies the dropped predicate. -/
theorem dropWhile_head_not {α : Type} (p : α → Bool) (l : List α) (a : α)
    (h : (l.dropWhile p).head? = some a) : p a = false := by
  induction l with
  | nil => simp [List.dropWhile] at h
  | cons x xs ih =>
    rw [List.dropWhile_cons] at h
    by_cases hx : p x
    · rw [if_pos hx] at h
      exact ih h
    · rw [if_neg hx] at h
      simp only [List.head?_cons, Option.some.injEq] at h
      rw [← h]
      exact Bool.eq_false_iff.mpr hx

/-- The last element survives a non-annihilating dropWhile. -/
theorem getLast?_dropWhile {α : Type} (p : α → Bool) (l : List α)
    (h : l.dropWhile p ≠ []) : (l.dropWhile p).getLast? = l.getLast? := by
  induction l with
  | nil => simp [List.dropWhile] at h
  | cons x xs ih =>
    rw [List.dropWhile_cons]
    by_cases hx : p x
    · rw [if_pos hx]
      rw [List.dropWhile_cons, if_pos hx] at h
      have hxs : xs ≠ [] := by
        intro he
        rw [he] at h
        simp [List.dropWhile] at h
      rcases List.exists_cons_of_ne_nil hxs with ⟨y, ys, rfl⟩
      rw [ih h, List.getLast?_cons_cons]
    · rw [if_neg hx]

/-- Filtering is blind to a dropWhile that removes only filtered-out
elements. -/
theorem filter_dropWhile {α : Type} (p q : α → Bool) (l : List α)
    (h : ∀ a, p a = true → q a = false) :
    (l.dropWhile p).filter q = l.filter q := by
  induction l with
  | nil => rfl
  | cons x xs ih =>
    rw [List.dropWhile_cons]
    by_cases hx : p x
    · rw [if_pos hx, ih, List.filter_cons, h x hx]
      simp
    · rw [if_neg hx]

/-- Alphanumeric characters are never hyphens. -/
theorem alnum_ne_hyphen (c : Char) (h : isAsciiLowerAlnum c = true) : c ≠ '-' := by
  intro he
  rw [he] at h
  exact absurd h (by decide)

/-- Every character the collapse emits is alphanumeric or a hyphen. -/
theorem collapseGo_mem (b : Bool) (l : List Char) :
    ∀ c ∈ collapseGo b l, isAsciiLowerAlnum c = true ∨ c = '-' := by
  induction l generalizing b with
  | nil => intro c hc; simp [collapseGo] at hc
  | cons x xs ih =>
    intro c hc
    rw [collapseGo] at hc
    by_cases hx : isAsciiLowerAlnum x
    · rw [if_pos hx] at hc
      rcases List.mem_cons.mp hc with rfl | hc
      · exact Or.inl hx
      · exact ih false c hc
    · rw [if_neg hx] at hc
      cases b with
      | true => exact ih true c (by simpa using hc)
      | false =>
        rcases List.mem_cons.mp (by simpa using hc) with rfl | hc2
        · exact Or.inr rfl
        · exact ih true c hc2

/-- The collapse keeps exactly the alphanumeric characters, in order. -/
theorem collapseGo_filter (b : Bool) (l : List Char) :
    (collapseGo b l).filter isAsciiLowerAlnum = l.filter isAsciiLowerAlnum := by
  induction l generalizing b with
  | nil => simp [collapseGo]
  | cons x xs ih =>
    rw [collapseGo]
    by_cases hx : isAsciiLowerAlnum x
    · rw [if_pos hx, List.filter_cons, List.filter_cons, hx]
      simp only [if_true]
      rw [ih false]
    · rw [if_neg hx, List.filter_cons]
      rw [Bool.eq_false_iff.mpr hx]
      simp only [Bool.false_eq_true, if_false]
      cases b with
      | true => simpa using ih true
      | false =>
        show (('-' : Char) :: collapseGo true xs).filter isAsciiLowerAlnum = _
        rw [List.filter_cons]
        rw [show isAsciiLowerAlnum '-' = false from by decide]
        simpa using ih true

/-- In the middle of a non-alphanumeric run the collapse next emits an
alphanumeric character, never a hyphen. -/
theorem collapseGo_true_head (l : List Char) (a : Char)
    (h : (collapseGo true l).head? = some a) : isAsciiLowerAlnum a = true := by
  induction l with
  | nil => simp [collapseGo] at h
  | cons x xs ih =>
    rw [collapseGo] at h
    by_cases hx : isAsciiLowerAlnum x
    · rw [if_pos hx] at h
      simp only [List.head?_cons, Option.some.injEq] at h
      rw [← h]
      exact hx
    · rw [if_neg hx] at h
      exact ih (by simpa using h)

/-- The collapse never emits two adjacent hyphens. -/
theorem collapseGo_chain (b : Bool) (l : List Char) :
    (collapseGo b l).Chain' (fun x y => ¬(x = '-' ∧ y = '-')) := by
  induction l generalizing b with
  | nil => simp [collapseGo]
  | cons x xs ih =>
    rw [collapseGo]
    by_cases hx : isAsciiLowerAlnum x
    · rw [if_pos hx]
      refine List.chain'_cons'.mpr ⟨?_, ih false⟩
      intro y _
      intro hcon
      exact alnum_ne_hyphen x hx hcon.1
    · rw [if_neg hx]
      cases b with
      | true => simpa using ih true
      | false =>
        show (('-' : Char) :: collapseGo true xs).Chain' _
        refine List.chain'_cons'.mpr ⟨?_, ih true⟩
        intro y hy
        intro hcon
        have := collapseGo_true_head xs y hy
        exact alnum_ne_hyphen y this hcon.2

/-- The hyphen trim leaves no hyphen at the front. -/
theorem trimHyphens_head (l : List Char) (a : Char)
    (h : (trimHyphens l).head? = some a) : a ≠ '-' := by
  unfold trimHyphens at h
  rw [List.head?_reverse] at h
  have hne : (l.dropWhile fun c => c = '-').reverse.dropWhile (fun c => c = '-') ≠ [] := by
    intro he
    rw [he] at h
    simp at h
  rw [getLast?_dropWhile _ _ hne, List.getLast?_reverse] at h
  have := dropWhile_head_not (fun c => decide (c = '-')) l a h
  simpa using this

/-- The hyphen trim leaves no hyphen at the back. -/
theorem trimHyphens_getLast (l : List Char) (a : Char)
    (h : (trimHyphens l).getLast? = some a) : a ≠ '-' := by
  unfold trimHyphens at h
  rw [List.getLast?_reverse] at h
  have := dropWhile_head_not (fun c => decide (c = '-')) (l.dropWhile fun c => c = '-').reverse a h
  simpa using this

/-- The hyphen trim keeps the no-adjacent-hyphens invariant. -/
theorem trimHyphens_chain (l : List Char)
    (h : l.Chain' (fun x y => ¬(x = '-' ∧ y = '-'))) :
    (trimHyphens l).Chain' (fun x y => ¬(x = '-' ∧ y = '-')) := by
  unfold trimHyphens
  have h1 : (l.dropWhile fun c => c = '-').Chain' (fun x y => ¬(x = '-' ∧ y = '-')) :=
    h.suffix (List.dropWhile_suffix _)
  have h2 : (l.dropWhile fun c => c = '-').reverse.Chain'
      (fun x y => ¬(x = '-' ∧ y = '-')) := by
    rw [List.chain'_reverse]
    refine h1.imp ?_
    intro a b hab hcon
    exact hab ⟨hcon.2, hcon.1⟩
  have h3 := h2.suffix (List.dropWhile_suffix (fun c => decide (c = '-')))
  rw [List.chain'_reverse]
  refine h3.imp ?_
  intro a b hab hcon
  exact hab ⟨hcon.2, hcon.1⟩

/-- The hyphen trim removes only hyphens: the alphanumeric content is
untouched. -/
theorem trimHyphens_filter (l : List Char) :
    (trimHyphens l).filter isAsciiLowerAlnum = l.filter isAsciiLowerAlnum := by
  unfold trimHyphens
  have hpq : ∀ a : Char, decide (a = '-') = true → isAsciiLowerAlnum a = false := by
    intro a ha
    have : a = '-' := of_decide_eq_true ha
    rw [this]
    decide
  rw [List.filter_reverse, filter_dropWhile _ _ _ hpq, List.filter_reverse,
    filter_dropWhile _ _ _ hpq, List.reverse_reverse]

/-- Digit characters produced by digitChar below base 10 are decimal
digits. -/
theorem digitChar_isDigit (m : ℕ) (h : m < 10) : (Nat.digitChar m).isDigit = true := by
  interval_cases m <;> decide

/-- Characters accumulated by the decimal rendering loop are digits or come
from the accumulator. -/
theorem toDigitsCore_mem (f : ℕ) : ∀ (n : ℕ) (l : List Char),
    ∀ c ∈ Nat.toDigitsCore 10 f n l, c.isDigit = true ∨ c ∈ l := by
  induction f with
  | zero => intro n l c hc; exact Or.inr hc
  | succ f ih =>
    intro n l c hc
    rw [Nat.toDigitsCore] at hc
    by_cases h : n / 10 = 0
    · rw [if_pos h] at hc
      rcases List.mem_cons.mp hc with rfl | hc
      · exact Or.inl (digitChar_isDigit _ (Nat.mod_lt _ (by norm_num)))
      · exact Or.inr hc
    · rw [if_neg h] at hc
      rcases ih (n / 10) (Nat.digitChar (n % 10) :: l) c hc with hd | hm
      · exact Or.inl hd
      · rcases List.mem_cons.mp hm with rfl | hm2
        · exact Or.inl (digitChar_isDigit _ (Nat.mod_lt _ (by norm_num)))
        · exact Or.inr hm2

/-- Every character of the decimal rendering of a natural number is a
decimal digit. -/
theorem repr_all_digits (n : ℕ) : (Nat.repr n).data.all Char.isDigit = true := by
  rw [List.all_eq_true]
  intro c hc
  have h2 : c ∈ Nat.toDigitsCore 10 (n + 1) n [] := hc
  rcases toDigitsCore_mem (n + 1) n [] c h2 with hd | hm
  · exact hd
  · simp at hm

/-- With enough fuel the rendering loop emits exactly one character per
decimal digit on top of the accumulator. -/
theorem toDigitsCore_length_eq (f : ℕ) : ∀ (n : ℕ) (l : List Char), n < f →
    (Nat.toDigitsCore 10 f n l).length = l.length + Nat.log 10 n + 1 := by
  induction f with
  | zero => intro n l h; omega
  | succ f ih =>
    intro n l hf
    rw [Nat.toDigitsCore]
    by_cases h : n / 10 = 0
    · rw [if_pos h]
      have hn : n < 10 := by omega
      have hl : Nat.log 10 n = 0 := Nat.log_eq_zero_iff.mpr (Or.inl hn)
      simp [hl]
    · rw [if_neg h]
      have hn : 10 ≤ n := by
        by_contra hcon
        exact h (Nat.div_eq_of_lt (by omega))
      have hstep : n / 10 < f := by
        have := Nat.div_lt_self (by omega : 0 < n) (by norm_num : 1 < 10)
        omega
      rw [ih (n / 10) (Nat.digitChar (n % 10) :: l) hstep, Nat.log_div_base]
      have hpos : 0 < Nat.log 10 n := Nat.log_pos (by norm_num) hn
      simp only [List.length_cons]
      omega

/-- Length of the decimal rendering of a natural number. -/
theorem repr_length_eq (n : ℕ) : (Nat.repr n).data.length = Nat.log 10 n + 1 := by
  have h := toDigitsCore_length_eq (n + 1) n [] (by omega)
  simpa using h

/-- Four-digit years render as four digit characters. -/
theorem repr_year_digits (y : ℕ) (h2 : y < 10000) (h1 : 1000 ≤ y) :
    (Nat.repr y).data.length = 4 ∧ (Nat.repr y).data.all Char.isDigit = true := by
  refine ⟨?_, repr_all_digits y⟩
  rw [repr_length_eq]
  have hl : Nat.log 10 y = 3 :=
    Nat.log_eq_of_pow_le_of_lt_pow (by norm_num; omega) (by norm_num; omega)
  omega

/-- Numbers below 100 zero-pad to exactly two digit characters. -/
theorem pad2_digits (n : ℕ) (h : n < 100) :
    (padStart2Zero (Nat.repr n)).data.length = 2 ∧
    (padStart2Zero (Nat.repr n)).data.all Char.isDigit = true := by
  have hlog : Nat.log 10 n ≤ 1 := by
    by_contra hcon
    push_neg at hcon
    have hn0 : n ≠ 0 := by
      intro h0
      rw [h0] at hcon
      simp [Nat.log] at hcon
    have hp := Nat.pow_log_le_self 10 hn0
    have hpow : 10 ^ 2 ≤ 10 ^ Nat.log 10 n := Nat.pow_le_pow_right (by norm_num) (by omega)
    omega
  constructor
  · show (List.replicate (2 - (Nat.repr n).data.length) '0' ++ (Nat.repr n).data).length = 2
    rw [List.length_append, List.length_replicate, repr_length_eq]
    omega
  · show (List.replicate (2 - (Nat.repr n).data.length) '0' ++
      (Nat.repr n).data).all Char.isDigit = true
    rw [List.all_append, Bool.and_eq_true]
    refine ⟨?_, repr_all_digits n⟩
    rw [List.all_eq_true]
    intro c hc
    rw [List.eq_of_mem_replicate hc]
    decide

/-- The hyphen trim returns a sublist of its input. -/
theorem trimHyphens_sublist (l : List Char) : (trimHyphens l).Sublist l := by
  unfold trimHyphens
  have h1 : ((l.dropWhile fun c => c = '-').reverse.dropWhile (fun c => c = '-')).Sublist
      (l.dropWhile fun c => c = '-').reverse := (List.dropWhile_suffix _).sublist
  have h2 := List.reverse_sublist.mpr h1
  rw [List.reverse_reverse] at h2
  exact h2.trans (List.dropWhile_suffix _).sublist

/-- C7: createDirName joins the YYYY-MM-DD date prefix and the normalized
name with a hyphen, or returns the bare prefix when the normalized name is
empty; the prefix matches four digits, hyphen, two digits, hyphen, two
digits; and the normalized name is made of lowercase alphanumerics and
single separating hyphens, with no hyphen at either end, containing exactly
the alphanumeric characters of the lower-cased input in order. -/
theorem createDirName_transform (y m d : ℕ) (name : String)
    (hy1 : 1000 ≤ y) (hy2 : y < 10000) (hm : m < 100) (hd : d < 100) :
    (createDirName y m d name =
      if normalizeName name = "" then todayPrefix y m d
      else todayPrefix y m d ++ "-" ++ normalizeName name) ∧
    (∃ yd md dd : List Char,
      (todayPrefix y m d).data = yd ++ '-' :: (md ++ '-' :: dd) ∧
      yd.length = 4 ∧ md.length = 2 ∧ dd.length = 2 ∧
      (yd ++ md ++ dd).all Char.isDigit = true) ∧
    (∀ c ∈ (normalizeName name).data, isAsciiLowerAlnum c = true ∨ c = '-') ∧
    (∀ a ∈ (normalizeName name).data.head?, a ≠ '-') ∧
    (∀ a ∈ (normalizeName name).data.getLast?, a ≠ '-') ∧
    (normalizeName name).data.Chain' (fun a b => ¬(a = '-' ∧ b = '-')) ∧
    (normalizeName name).data.filter isAsciiLowerAlnum =
      ((jsToLowerCase name).data).filter isAsciiLowerAlnum := by
  have hdata : (normalizeName name).data =
      trimHyphens (collapseGo false ((jsToLowerCase name).data)) := rfl
  refine ⟨rfl, ?_, ?_, ?_, ?_, ?_, ?_⟩
  · refine ⟨(Nat.repr y).data, (padStart2Zero (Nat.repr m)).data,
      (padStart2Zero (Nat.repr d)).data, ?_, (repr_year_digits y hy2 hy1).1,
      (pad2_digits m hm).1, (pad2_digits d hd).1, ?_⟩
    · show (Nat.repr y ++ "-" ++ padStart2Zero (Nat.repr m) ++ "-" ++
        padStart2Zero (Nat.repr d)).data = _
      rw [String.data_append, String.data_append, String.data_append,
        show ("-" : String).data = ['-'] from rfl]
      simp [List.append_assoc]
    · rw [List.all_append, List.all_append]
      rw [(repr_year_digits y hy2 hy1).2, (pad2_digits m hm).2, (pad2_digits d hd).2]
      rfl
  · intro c hc
    rw [hdata] at hc
    exact collapseGo_mem false _ c
      ((trimHyphens_sublist (collapseGo false ((jsToLowerCase name).data))).subset hc)
  · intro a ha
    rw [hdata] at ha
    exact trimHyphens_head _ a ha
  · intro a ha
    rw [hdata] at ha
    exact trimHyphens_getLast _ a ha
  · rw [hdata]
    exact trimHyphens_chain _ (collapseGo_chain false _)
  · rw [hdata]
    rw [trimHyphens_filter, collapseGo_filter]

/-- C7 witness at the date 2025-10-12: the transform shape holds, and the
concrete round trips of the specification come out as
2025-10-12-my-cool-project and the bare 2025-10-12. -/
theorem createDirName_transform_witness :
    (createDirName 2025 10 12 ("My Cool Project!") =
      if normalizeName ("My Cool Project!") = "" then todayPrefix 2025 10 12
      else todayPrefix 2025 10 12 ++ "-" ++ normalizeName ("My Cool Project!")) ∧
    createDirName 2025 10 12 ("My Cool Project!") = "2025-10-12-my-cool-project" ∧
    createDirName 2025 10 12 ("") = "2025-10-12" :=
  ⟨(createDirName_transform 2025 10 12 ("My Cool Project!") (by norm_num) (by norm_num)
      (by norm_num) (by norm_num)).1, by decide, by decide⟩
